import Mathlib

set_option linter.unusedVariables false

/-!
# Verification of the Pulse voice-call core

A shallow embedding, in Lean 4, of the parts of the Pulse repository
(`src-tauri/src`) that its specification talks about:

* `crypto/keypair.rs` — canonical JSON signing (`KeyPair::sign_message`,
  `KeyPair::sort_json_object`);
* `signaling/client.rs` — signed message framing
  (`send_signed_message`), the registration handshake
  (`connect_and_register`) and the heartbeat task;
* `signaling/messages.rs` — the wire message types;
* `call_engine/engine.rs` — the call state machine (`start_call`,
  `accept_call`, `end_call`, `register_incoming_call`);
* `call_engine/audio.rs` — ring buffers, the capture callback, mute and
  level metering;
* `lib.rs` — the orchestrator (`handle_signaling_event`, the heartbeat
  task spawned by the `connect_and_register` command).

JSON values are modelled by a mutual inductive mirroring
`serde_json::Value`; machine floats (`f32`) are modelled by `Rat`, and
the `f32::sqrt` primitive is kept abstract as a function parameter.
Ed25519 (the external `ed25519_dalek` crate) is modelled as an abstract
deterministic signature scheme: a key pair carries a signing function on
strings, and verification checks the signature against the signing
function, which is exactly the determinism-plus-correctness contract of
Ed25519 that the code relies on.
-/

/-! ## JSON values (`serde_json::Value`)

`serde_json::Value` with numbers restricted to `Int` (the protocol only
carries `i64` timestamps and codes; `f64` payloads are out of scope).
Objects are association lists in insertion order, mirroring a
`serde_json::Map`; its keys are unique in the source, but nothing below
depends on that invariant.
-/

mutual

inductive Json where
  | null : Json
  | bool : Bool → Json
  | num : Int → Json
  | str : String → Json
  | arr : JsonList → Json
  | obj : JsonFields → Json

inductive JsonList where
  | nil : JsonList
  | cons : Json → JsonList → JsonList

inductive JsonFields where
  | nil : JsonFields
  | cons : String → Json → JsonFields → JsonFields

end

/-! ## Canonicalization (`KeyPair::sort_json_object`, keypair.rs 170-187)

The Rust code collects the keys of an object, sorts them (`keys.sort()`,
a stable ascending sort), skips any key named `"signature"`, and
recursively rebuilds the object in that order.  Non-object values —
including arrays — are returned by `other => other.clone()` without any
recursion.

The embedding recurses into every value first (`sortValsRec`) and then
sorts the pairs by key (`isortFields`, a stable insertion sort that
moves whole pairs, so pre-applying the recursion to a value that is
about to be dropped or moved changes nothing) and drops the
`"signature"` entries (`dropSig`).
-/

/-- Strict order on characters by code point. -/
def charLt (c d : Char) : Bool :=
  c.toNat < d.toNat

/-- Lexicographic strict order on character lists. -/
def charListLt : List Char → List Char → Bool
  | _, [] => false
  | [], _ :: _ => true
  | c :: cs, d :: ds =>
      if charLt c d then true
      else if charLt d c then false
      else charListLt cs ds

/-- Lexicographic strict order on strings: the order `Vec::sort`
applies to `String` keys in Rust (bytewise comparison of UTF-8, which
coincides with code-point order). -/
def strLt (a b : String) : Bool :=
  charListLt a.data b.data

/-- Stable ascending insertion of one key/value pair: the new pair goes
in front of the first entry whose key is not smaller. -/
def insertField (k : String) (v : Json) : JsonFields → JsonFields
  | .nil => .cons k v .nil
  | .cons k1 v1 rest =>
      if strLt k1 k then .cons k1 v1 (insertField k v rest)
      else .cons k v (.cons k1 v1 rest)

/-- Insertion sort of an object's entries by key — the model of
`keys.sort()` in `sort_json_object`. -/
def isortFields : JsonFields → JsonFields
  | .nil => .nil
  | .cons k v rest => insertField k v (isortFields rest)

/-- Drop every entry named `"signature"` — the model of the
`if key != "signature"` filter in `sort_json_object`. -/
def dropSig : JsonFields → JsonFields
  | .nil => .nil
  | .cons k v rest =>
      if k = "signature" then dropSig rest else .cons k v (dropSig rest)

mutual

/-- `KeyPair::sort_json_object` (keypair.rs 170-187): objects are
rebuilt with keys sorted and `"signature"` entries removed, recursively
through object values; every non-object value (arrays included) is
returned unchanged. -/
def sort_json_object (j : Json) : Json :=
  match j with
  | .obj fields => .obj (dropSig (isortFields (sortValsRec fields)))
  | other => other
termination_by structural j

/-- Recurse `sort_json_object` into each value of an object. -/
def sortValsRec (fs : JsonFields) : JsonFields :=
  match fs with
  | .nil => .nil
  | .cons k v rest => .cons k (sort_json_object v) (sortValsRec rest)
termination_by structural fs

end

/-! ## Serialization (`serde_json::to_string`)

Minimal JSON text: no whitespace, object entries in map order, strings
escaped the way `serde_json` escapes them (`"`, `\` and the control
characters below 0x20). -/

/-- Two lowercase hex digits of a byte-sized number. -/
def hexByte (n : Nat) : String :=
  let d := fun (m : Nat) =>
    if m < 10 then Char.ofNat (48 + m) else Char.ofNat (87 + m)
  String.mk [d (n / 16 % 16), d (n % 16)]

/-- Escape one character as `serde_json` does inside a string literal. -/
def escapeChar (c : Char) : String :=
  if c = '"' then "\\\""
  else if c = '\\' then "\\\\"
  else if c = Char.ofNat 8 then "\\b"
  else if c = Char.ofNat 9 then "\\t"
  else if c = Char.ofNat 10 then "\\n"
  else if c = Char.ofNat 12 then "\\f"
  else if c = Char.ofNat 13 then "\\r"
  else if c.toNat < 32 then "\\u00" ++ hexByte c.toNat
  else String.mk [c]

/-- Escape a string body as `serde_json` does. -/
def escapeString (s : String) : String :=
  String.join (s.data.map escapeChar)

mutual

/-- `serde_json::to_string` on the `Json` model: minimal JSON text. -/
def serializeJson (j : Json) : String :=
  match j with
  | .null => "null"
  | .bool b => if b then "true" else "false"
  | .num n => toString n
  | .str s => "\"" ++ escapeString s ++ "\""
  | .arr items => "[" ++ serializeList items ++ "]"
  | .obj fields => "\x7b" ++ serializeFields fields ++ "\x7d"
termination_by structural j

/-- Comma-separated serialization of array elements. -/
def serializeList (l : JsonList) : String :=
  match l with
  | .nil => ""
  | .cons v .nil => serializeJson v
  | .cons v rest => serializeJson v ++ "," ++ serializeList rest
termination_by structural l

/-- Comma-separated serialization of object entries. -/
def serializeFields (fs : JsonFields) : String :=
  match fs with
  | .nil => ""
  | .cons k v .nil => "\"" ++ escapeString k ++ "\":" ++ serializeJson v
  | .cons k v rest =>
      "\"" ++ escapeString k ++ "\":" ++ serializeJson v ++ ","
        ++ serializeFields rest
termination_by structural fs

end

/-! ## The key pair (`crypto/keypair.rs`)

`ed25519_dalek` signing is deterministic, and a signature produced by
`sign` verifies under the derived public key.  The model keeps exactly
that interface: a key pair is an abstract signing function from message
strings to base64 signature strings, and verification under the pair's
public key holds iff the signature equals the signing function's output
on the message. -/

/-- Abstract model of `KeyPair` (keypair.rs): the Ed25519 signing
function over the UTF-8 bytes of a string, returning the base64
signature that `sign_base64` would return. -/
structure KeyPair where
  sign_base64 : String → String

/-- Ed25519 verification under the key pair's public key, for a
deterministic scheme: the signature must be the one `sign_base64`
produces on the message. -/
def KeyPair.verify (kp : KeyPair) (message sig : String) : Bool :=
  sig == kp.sign_base64 message

/-- `KeyPair::sign_message` (keypair.rs 162-167): canonicalize the
payload with `sort_json_object`, serialize it, and sign the resulting
string. -/
def KeyPair.sign_message (kp : KeyPair) (payload : Json) : String :=
  kp.sign_base64 (serializeJson (sort_json_object payload))

-- Quick sanity checks of the canonicalization on concrete values.
/-- Every key in `fs` is `≥ k` (no key is strictly below `k`). -/
def allKeyLe (k : String) : JsonFields → Bool
  | .nil => true
  | .cons k1 _ rest => !(strLt k1 k) && allKeyLe k rest

/-- The fields are sorted ascending by key. -/
def sortedFields : JsonFields → Bool
  | .nil => true
  | .cons k _ rest => allKeyLe k rest && sortedFields rest

/-- No field is named `"signature"`. -/
def noSigF : JsonFields → Bool
  | .nil => true
  | .cons k _ rest => !(k = "signature") && noSigF rest

/-! ## Map insertion and field access (`serde_json::Map::insert` / `get`)

`send_signed_message` mutates the payload object via
`as_object_mut().insert(..)`. `mapInsert` models it: replace the value
of an existing entry, otherwise add the entry (the position of a fresh
entry in a `serde_json::Map` is irrelevant here — canonicalization
re-sorts and field lookup is position-independent). On a non-object
value `as_object_mut()` returns `None` and the insert is skipped. -/

def mapInsert (k : String) (v : Json) : JsonFields → JsonFields
  | .nil => .cons k v .nil
  | .cons k1 v1 rest =>
      if k1 = k then .cons k1 v rest else .cons k1 v1 (mapInsert k v rest)

/-- `as_object_mut()` + `insert` on a `serde_json::Value`: no-op on
non-objects. -/
def Json.objectInsert (k : String) (v : Json) : Json → Json
  | .obj fs => .obj (mapInsert k v fs)
  | other => other

/-- Field lookup in an object (first match), `None` on non-objects. -/
def getFieldF (k : String) : JsonFields → Option Json
  | .nil => none
  | .cons k1 v rest => if k1 = k then some v else getFieldF k rest

/-- `Value::get` on the model. -/
def Json.getField (k : String) : Json → Option Json
  | .obj fs => getFieldF k fs
  | _ => none

/-- Remove every field named `k` from an object (`Map::remove`;
no-op on non-objects). -/
def removeFieldF (k : String) : JsonFields → JsonFields
  | .nil => .nil
  | .cons k1 v rest =>
      if k1 = k then removeFieldF k rest else .cons k1 v (removeFieldF k rest)

/-- Remove a field from a JSON value (no-op on non-objects). -/
def Json.removeField (k : String) : Json → Json
  | .obj fs => .obj (removeFieldF k fs)
  | other => other

/-! ## Adding / removing a `"signature"` field at depth

The operations the spec quantifies over in its transparency property:
editing a `"signature"` field of the object reached by following a path
of keys (each step descends into the value of an object entry; if the
path does not lead through objects the edit is a no-op). -/

/-- Apply `f` to the value of the (first) entry named `k`. -/
def modifyField (k : String) (f : Json → Json) : JsonFields → JsonFields
  | .nil => .nil
  | .cons k1 v rest =>
      if k1 = k then .cons k1 (f v) rest else .cons k1 v (modifyField k f rest)

/-- Add a `"signature"` field to the object at `path` (no-op when the
path does not lead to an object). -/
def addSigAt : List String → Json → Json → Json
  | [], v, .obj fs => .obj (.cons "signature" v fs)
  | k :: ks, v, .obj fs => .obj (modifyField k (fun x => addSigAt ks v x) fs)
  | _, _, j => j

/-- Remove the `"signature"` field of the object at `path` (no-op when
the path does not lead to an object). -/
def removeSigAt : List String → Json → Json
  | [], .obj fs => .obj (removeFieldF "signature" fs)
  | k :: ks, .obj fs => .obj (modifyField k (fun x => removeSigAt ks x) fs)
  | _, j => j

/-! ## Shape of the canonical form

`canonJson` says: every object reachable without passing through an
array has sorted keys and no `"signature"` entry.  `hasSigDeep` looks
for a `"signature"` key anywhere, arrays included. -/

mutual

/-- The value is canonical along object paths: sorted keys, no
`"signature"` entries (arrays are not constrained — the code copies
them verbatim). -/
def canonJson (j : Json) : Bool :=
  match j with
  | .obj fs => sortedFields fs && noSigF fs && canonFields fs
  | _ => true
termination_by structural j

/-- All values of the fields are canonical along object paths. -/
def canonFields (fs : JsonFields) : Bool :=
  match fs with
  | .nil => true
  | .cons _ v rest => canonJson v && canonFields rest
termination_by structural fs

end

mutual

/-- A `"signature"` key occurs somewhere in the value, at any depth,
arrays included. -/
def hasSigDeep (j : Json) : Bool :=
  match j with
  | .arr l => hasSigDeepL l
  | .obj fs => hasSigDeepF fs
  | _ => false
termination_by structural j

/-- A `"signature"` key occurs in some array element. -/
def hasSigDeepL (l : JsonList) : Bool :=
  match l with
  | .nil => false
  | .cons v rest => hasSigDeep v || hasSigDeepL rest
termination_by structural l

/-- A `"signature"` key occurs among the fields or below them. -/
def hasSigDeepF (fs : JsonFields) : Bool :=
  match fs with
  | .nil => false
  | .cons k v rest => (k = "signature") || hasSigDeep v || hasSigDeepF rest
termination_by structural fs

end

/-! ## Signed message framing (`SignalingClient::send_signed_message`,
client.rs 427-466; the non-blocking `send_signed_message_sync`,
client.rs 386-425, builds the identical message)

The payload is serialized to JSON, `timestamp` is inserted, the
signature is computed by `KeyPair::sign_message` over that signable
value, and the `signature` field is inserted into the final message. -/

def send_signed_message (kp : KeyPair) (payload : Json) (timestamp : Int) : Json :=
  let signable := Json.objectInsert "timestamp" (.num timestamp) payload
  let signature := kp.sign_message signable
  Json.objectInsert "signature" (.str signature) signable

/-- The canonicalization used for signing: sort (dropping `signature`),
then serialize minimally. -/
def canonicalString (j : Json) : String :=
  serializeJson (sort_json_object j)

/-! ## Signaling client (`signaling/client.rs`, `signaling/messages.rs`) -/

/-- `SignalingError` (client.rs 23-39). -/
inductive SignalingError where
  | ConnectionFailed (detail : String)
  | NotConnected
  | SendFailed (detail : String)
  | RegistrationFailed (detail : String)
  | ServerError (code : Int) (message : String)
deriving Repr, DecidableEq

/-- `SignalingEvent` (client.rs 46-96).  `UserFound` carries the
`ContactInfo` fields inline. -/
inductive SignalingEvent where
  | Connected
  | Disconnected
  | Registered (peer_id username : String)
  | UserFound (peer_id username : String) (is_online : Bool)
  | UserNotFound (username : String)
  | IncomingCall (from_peer_id from_username sdp : String)
  | AnswerReceived (from_peer_id sdp : String)
  | IceCandidateReceived (from_peer_id candidate : String)
  | CallRejected (by_peer_id : String) (reason : Option String)
  | CallEnded (by_peer_id : String)
  | ContactOnline (peer_id : String)
  | ContactOffline (peer_id : String)
  | Error (code : Int) (message : String)
deriving Repr, DecidableEq

/-- `ClientState` (client.rs 102-107). -/
structure ClientState where
  is_connected : Bool
  peer_id : Option String
  username : Option String
deriving Repr, DecidableEq

/-- `ServerMessage` (messages.rs 199-287): the tagged union of server →
client messages. -/
inductive ServerMessage where
  | Registered (peer_id username : String) (timestamp : Int)
  | UserFound (peer_id username : String) (is_online : Bool) (timestamp : Int)
  | UserNotFound (username : String) (timestamp : Int)
  | IncomingOffer (from_peer_id from_username sdp : String) (timestamp : Int)
  | IncomingAnswer (from_peer_id sdp : String) (timestamp : Int)
  | IncomingIceCandidate (from_peer_id candidate : String) (timestamp : Int)
  | CallRejected (by_peer_id : String) (reason : Option String) (timestamp : Int)
  | CallEnded (by_peer_id : String) (timestamp : Int)
  | UserOffline (peer_id : String) (timestamp : Int)
  | UserOnline (peer_id : String) (timestamp : Int)
  | Error (code : Int) (message : String) (timestamp : Int)
  | Pong (timestamp : Int)
deriving Repr, DecidableEq

/-- `SignalingClient::handle_server_message` (client.rs 469-570): the new
client state, what is sent on the registration response channel
(`reg_tx`), and the events broadcast. -/
def handle_server_message (msg : ServerMessage) (st : ClientState) :
    ClientState × Option (Except SignalingError String) × List SignalingEvent :=
  match msg with
  | .Registered peer_id username _ =>
      ({ st with peer_id := some peer_id, username := some username },
        some (.ok peer_id),
        [.Registered peer_id username])
  | .UserFound peer_id username is_online _ =>
      (st, none, [.UserFound peer_id username is_online])
  | .UserNotFound username _ => (st, none, [.UserNotFound username])
  | .IncomingOffer f u sdp _ => (st, none, [.IncomingCall f u sdp])
  | .IncomingAnswer f sdp _ => (st, none, [.AnswerReceived f sdp])
  | .IncomingIceCandidate f c _ => (st, none, [.IceCandidateReceived f c])
  | .CallRejected b r _ => (st, none, [.CallRejected b r])
  | .CallEnded b _ => (st, none, [.CallEnded b])
  | .UserOnline p _ => (st, none, [.ContactOnline p])
  | .UserOffline p _ => (st, none, [.ContactOffline p])
  | .Error code message _ =>
      (st, some (.error (.ServerError code message)), [.Error code message])
  | .Pong _ => (st, none, [])

/-- The registration wait bound (client.rs 251:
`tokio::time::sleep(Duration::from_secs(10))`), in milliseconds. -/
def REGISTRATION_TIMEOUT_MS : Nat := 10000

/-- Which branch of the `tokio::select!` in `connect_and_register`
(client.rs 243-254) completes first: a value received on the
registration channel, or the 10-second sleep. -/
inductive RegOutcome where
  | recv (m : Option (Except SignalingError String))
  | timeout

/-- The match on the select outcome in `connect_and_register`
(client.rs 243-254). -/
def registration_result : RegOutcome → Except SignalingError String
  | .recv (some (.ok peer_id)) => .ok peer_id
  | .recv (some (.error e)) => .error e
  | .recv none => .error (.RegistrationFailed "No response")
  | .timeout => .error (.RegistrationFailed "Timeout")

/-- The select's temporal behaviour: a registration response arriving
at `t` ms wins iff `t < 10000`, otherwise the sleep fires. `none` means
no response ever arrives. -/
def regOutcomeAt
    (arrival : Option (Nat × Option (Except SignalingError String))) : RegOutcome :=
  match arrival with
  | some (t, m) => if t < REGISTRATION_TIMEOUT_MS then .recv m else .timeout
  | none => .timeout

/-- The first value the read task puts on the registration channel while
processing `msgs` in order (client.rs 195-227 + 469-570). -/
def first_reg_response :
    List ServerMessage → ClientState → Option (Except SignalingError String)
  | [], _ => none
  | msg :: rest, st =>
      match handle_server_message msg st with
      | (_, some r, _) => some r
      | (st', none, _) => first_reg_response rest st'

/-- Discriminator for the `RegistrationFailed` variant. -/
def isRegistrationFailed : SignalingError → Bool
  | .RegistrationFailed _ => true
  | _ => false

/-! ## Call engine (`call_engine/engine.rs`) -/

/-- `CallState` (engine.rs 57-71). -/
inductive CallState where
  | Idle
  | Calling (peer_id : String)
  | Ringing (peer_id : String) (username : String)
  | Connecting (peer_id : String)
  | Connected (peer_id : String)
  | Ended
deriving Repr, DecidableEq

/-- `CallEngineError` (engine.rs 34-50).  `Audio` carries the audio
error's message. -/
inductive CallEngineError where
  | WebRTC (detail : String)
  | Audio (detail : String)
  | NoActiveCall
  | AlreadyInCall
  | InvalidSdp (detail : String)
deriving Repr, DecidableEq

/-- `CallEvent` (engine.rs 74-80); levels are `f32`, modelled by `Rat`. -/
inductive CallEvent where
  | StateChanged (s : CallState)
  | IceCandidate (candidate : String)
  | AudioLevel (input output : Rat)
  | Error (message : String)
deriving Repr, DecidableEq

/-- Outcome environment for the asynchronous WebRTC and audio calls made
by `start_call` / `accept_call`: for each operation, `some e` is the
error message it fails with and `none` is success; plus the SDP strings
the successful operations return. -/
structure RtcEnv where
  create_pc : Option String
  add_track : Option String
  create_offer : Option String
  create_answer : Option String
  set_local_desc : Option String
  set_remote_desc : Option String
  parse_offer : Option String
  audio_init : Option String
  offer_sdp : String
  answer_sdp : String
deriving Repr, DecidableEq

/-- `CallEngine::start_call` (engine.rs 167-218): the returned value and
the call state when it returns.  The state is checked against `Idle`,
set to `Calling` before the RTC work, and — NB — never reset on an RTC
or audio failure: every error path after the guard leaves the state at
`Calling{peer_id}`. -/
def start_call (env : RtcEnv) (s : CallState) (peer_id : String) :
    Except CallEngineError String × CallState :=
  if s ≠ CallState.Idle then (.error .AlreadyInCall, s)
  else
    let s1 := CallState.Calling peer_id
    match env.create_pc with
    | some e => (.error (.WebRTC e), s1)
    | none =>
      match env.add_track with
      | some e => (.error (.WebRTC e), s1)
      | none =>
        match env.create_offer with
        | some e => (.error (.WebRTC e), s1)
        | none =>
          match env.set_local_desc with
          | some e => (.error (.WebRTC e), s1)
          | none =>
            match env.audio_init with
            | some e => (.error (.Audio e), s1)
            | none => (.ok env.offer_sdp, s1)

/-- The RTC phase of `CallEngine::accept_call` (engine.rs 224-289):
sets `Connecting` before the RTC work and never resets it on failure.
Operation order as in the source: create peer connection, parse the
offer (`InvalidSdp` on failure), set remote description, add track,
create answer, set local description, initialize audio. -/
def accept_call_rtc (env : RtcEnv) (peer_id : String) :
    Except CallEngineError String × CallState :=
  let s1 := CallState.Connecting peer_id
  match env.create_pc with
  | some e => (.error (.WebRTC e), s1)
  | none =>
    match env.parse_offer with
    | some e => (.error (.InvalidSdp e), s1)
    | none =>
      match env.set_remote_desc with
      | some e => (.error (.WebRTC e), s1)
      | none =>
        match env.add_track with
        | some e => (.error (.WebRTC e), s1)
        | none =>
          match env.create_answer with
          | some e => (.error (.WebRTC e), s1)
          | none =>
            match env.set_local_desc with
            | some e => (.error (.WebRTC e), s1)
            | none =>
              match env.audio_init with
              | some e => (.error (.Audio e), s1)
              | none => (.ok env.answer_sdp, s1)

/-- The guard of `accept_call`: allowed from `Ringing` or `Idle`, any
other state is `AlreadyInCall` with the state untouched. -/
def accept_call (env : RtcEnv) (s : CallState) (peer_id : String)
    (offer_sdp : String) : Except CallEngineError String × CallState :=
  match s with
  | .Ringing _ _ => accept_call_rtc env peer_id
  | .Idle => accept_call_rtc env peer_id
  | _ => (.error .AlreadyInCall, s)

/-- The engine's owned state relevant to teardown: the call state, and
whether the audio handler / peer connection are present (`Some`) —
engine.rs 121-127. -/
structure EngineModel where
  state : CallState
  audio_running : Bool
  pc_open : Bool
deriving Repr, DecidableEq

/-- `CallEngine::set_state` (engine.rs 570-574): store the new state and
broadcast `StateChanged`. -/
def set_state (m : EngineModel) (new_state : CallState) : EngineModel × CallEvent :=
  ({ m with state := new_state }, CallEvent.StateChanged new_state)

/-- The `Ended → Idle` delay (engine.rs 353:
`sleep(Duration::from_millis(500))`). -/
def ENDED_TO_IDLE_DELAY_MS : Nat := 500

/-- The delayed transition the teardown schedules: after `delayMs` the
spawned task stores `target` and broadcasts `event`. -/
structure PendingTransition where
  delayMs : Nat
  target : CallState
  event : CallEvent
deriving Repr, DecidableEq

/-- What `end_call` leaves behind: the engine state, the events
broadcast immediately, and the scheduled transition. -/
structure EndCallResult where
  engine : EngineModel
  events : List CallEvent
  timer : PendingTransition
deriving Repr, DecidableEq

/-- `CallEngine::end_call` (engine.rs 333-357): stop audio (drop the
handler), close the peer connection asynchronously (drop the handle),
`set_state(Ended)` (which broadcasts), and spawn a task that sleeps
500 ms, stores `Idle` and broadcasts `StateChanged(Idle)`. -/
def end_call (m : EngineModel) : EndCallResult :=
  let m1 : EngineModel := { m with audio_running := false }
  let m2 : EngineModel := { m1 with pc_open := false }
  let s := set_state m2 CallState.Ended
  { engine := s.1,
    events := [s.2],
    timer := { delayMs := ENDED_TO_IDLE_DELAY_MS, target := CallState.Idle,
               event := CallEvent.StateChanged CallState.Idle } }

/-- `CallEngine::reject_call` (engine.rs 328-330): delegates to
`end_call`. -/
def reject_call (m : EngineModel) : EndCallResult := end_call m

/-- The call state `t` ms after `end_call` returned, with the scheduled
transition executed at its delay (and no other operation in between). -/
def stateAfterEndCall (m : EngineModel) (t : Nat) : CallState :=
  if t < (end_call m).timer.delayMs then (end_call m).engine.state
  else (end_call m).timer.target

/-- `CallEngine::register_incoming_call` (engine.rs 384-387):
unconditionally `set_state(Ringing{peer_id, username})`. -/
def register_incoming_call (m : EngineModel) (peer_id username : String) :
    EngineModel × CallEvent :=
  set_state m (CallState.Ringing peer_id username)

/-- The orchestrator's effect on the call engine for each signaling
event (`handle_signaling_event`, lib.rs 545-669): `IncomingCall` →
`register_incoming_call`; `CallRejected`, `CallEnded` → `end_call`.
(`AnswerReceived` / `IceCandidateReceived` act on the peer connection,
not on the state; every event is also re-emitted to the UI.) -/
def handle_signaling_event_engine (ev : SignalingEvent) (m : EngineModel) :
    EngineModel :=
  match ev with
  | .IncomingCall from_peer_id from_username _ =>
      (register_incoming_call m from_peer_id from_username).1
  | .CallRejected _ _ => (end_call m).engine
  | .CallEnded _ => (end_call m).engine
  | _ => m

/-! ## Heartbeat (lib.rs 198-227, client.rs 313-325, messages.rs 176-192)

The task spawned by the `connect_and_register` command in lib.rs ticks a
`tokio::time::interval` of 25 s and calls `send_heartbeat_sync` while a
connected client exists.  (`SignalingClient::start_heartbeat`,
client.rs 573-588, uses a 30 s interval but has no caller anywhere in
the repository; the live heartbeat is the lib.rs task.) -/

/-- The interval of the spawned heartbeat task (lib.rs 202). -/
def HEARTBEAT_INTERVAL_SECS : Nat := 25

/-- The interval of the uncalled `SignalingClient::start_heartbeat`
(client.rs 576), kept for reference: it is dead code. -/
def START_HEARTBEAT_DEAD_CODE_INTERVAL_SECS : Nat := 30

/-- Tick times of a `tokio::time::interval` with period 25 s (first tick
immediate), in seconds. -/
def heartbeat_tick_time (n : Nat) : Nat := HEARTBEAT_INTERVAL_SECS * n

/-- `HeartbeatPayload::new(peer_id)` (messages.rs 185-192) as the JSON
object serde produces: `type` then `peerId`. -/
def HeartbeatPayload_new (peer_id : String) : Json :=
  Json.obj (.cons "type" (.str "heartbeat")
    (.cons "peerId" (.str peer_id) .nil))

/-- One tick of the lib.rs heartbeat task: when a client exists and
`is_connected()`, call `send_heartbeat_sync` (client.rs 321-325), which
needs a `peer_id` (else `NotConnected`, nothing enqueued) and hands the
signed heartbeat message to the outbound queue.  Returns the message
enqueued, if any. -/
def heartbeat_task_tick (kp : KeyPair) (client : Option ClientState)
    (ts : Int) : Option Json :=
  match client with
  | none => none
  | some st =>
      if st.is_connected then
        match st.peer_id with
        | some p => some (send_signed_message kp (HeartbeatPayload_new p) ts)
        | none => none
      else none

/-! ## Audio (`call_engine/audio.rs`) -/

/-- `SAMPLE_RATE` (audio.rs 18). -/
def SAMPLE_RATE : Nat := 48000

/-- `FRAME_SIZE` (audio.rs 24): 20 ms at 48 kHz. -/
def FRAME_SIZE : Nat := 960

/-- `RING_BUFFER_SIZE` (audio.rs 27). -/
def RING_BUFFER_SIZE : Nat := FRAME_SIZE * 10

/-- `ringbuf::HeapRb::try_push` on a buffer of capacity
`RING_BUFFER_SIZE`: append when there is room, otherwise drop the new
sample and leave the buffer unchanged (the `let _ = buffer.try_push(..)`
pattern of audio.rs 179 and 300). -/
def rb_try_push (buf : List Rat) (s : Rat) : List Rat :=
  if buf.length < RING_BUFFER_SIZE then buf ++ [s] else buf

/-- `AudioHandler::write_samples` (audio.rs 296-302): `try_push` each
sample in order. -/
def write_samples (buf : List Rat) (samples : List Rat) : List Rat :=
  samples.foldl rb_try_push buf

/-- `HeapRb::try_pop`: the oldest sample and the rest, or `none` when
empty. -/
def rb_try_pop (buf : List Rat) : Option Rat × List Rat :=
  match buf with
  | [] => (none, [])
  | x :: rest => (some x, rest)

/-- The playback callback's read (audio.rs 237:
`buffer.try_pop().unwrap_or(0.0)`): pop-on-empty yields silence. -/
def output_pop (buf : List Rat) : Rat × List Rat :=
  let r := rb_try_pop buf
  (r.1.getD 0, r.2)

/-- `AudioHandler::read_frame` (audio.rs 281-294): pop a 960-sample
frame iff at least 960 samples are buffered. -/
def read_frame (buf : List Rat) : Option (List Rat) × List Rat :=
  if buf.length ≥ FRAME_SIZE then (some (buf.take FRAME_SIZE), buf.drop FRAME_SIZE)
  else (none, buf)

/-- The linear resampler of the capture callback (audio.rs 158-174),
over exact rationals: `ratio = target/source`, output length
`⌊len·ratio⌋`, sample `i` interpolated between the two source samples
around `i/ratio` (out-of-range reads are 0 resp. the left sample). -/
def resampleLinear (ratio : Rat) (data : List Rat) : List Rat :=
  let new_len : Nat := ((data.length : Rat) * ratio).floor.toNat
  (List.range new_len).map (fun i =>
    let src_idx : Rat := (i : Rat) / ratio
    let idx : Nat := src_idx.floor.toNat
    let frac : Rat := src_idx - (idx : Rat)
    let s1 := (data.get? idx).getD 0
    let s2 := (data.get? (idx + 1)).getD s1
    s1 + (s2 - s1) * frac)

/-- The RMS of a callback block (audio.rs 149-150):
`sqrt(Σ s² / len)`, with the machine `f32::sqrt` kept abstract. -/
def blockRms (sqrtFn : Rat → Rat) (data : List Rat) : Rat :=
  sqrtFn (((data.map (fun s => s * s)).sum) / (data.length : Rat))

/-- What one run of the input callback leaves behind. -/
structure CaptureOut where
  buffer : List Rat
  input_level : Rat
deriving Repr, DecidableEq

/-- The capture callback (audio.rs 145-181): compute the RMS and store
`min rms 1` as the input level; when muted, return before anything is
written; otherwise resample (when rates differ) and `try_push` each
sample into the capture ring. -/
def input_callback (sqrtFn : Rat → Rat) (source_rate target_rate : Nat)
    (muted : Bool) (data : List Rat) (buffer : List Rat) : CaptureOut :=
  let rms := blockRms sqrtFn data
  let new_level := min rms 1
  if muted then { buffer := buffer, input_level := new_level }
  else
    let samples :=
      if source_rate ≠ target_rate then
        resampleLinear ((target_rate : Rat) / (source_rate : Rat)) data
      else data
    { buffer := write_samples buffer samples, input_level := new_level }

/-- The ring-buffer operations the code performs: a capture-callback
push, a `write_samples` bulk append, a playback-callback pop, and a
`read_frame`. -/
inductive RbOp where
  | push (s : Rat)
  | write (samples : List Rat)
  | pop
  | readFrame
deriving Repr, DecidableEq

/-- Apply one operation to a buffer. -/
def rb_apply (buf : List Rat) (op : RbOp) : List Rat :=
  match op with
  | .push s => rb_try_push buf s
  | .write samples => write_samples buf samples
  | .pop => (output_pop buf).2
  | .readFrame => (read_frame buf).2

/-- Run a sequence of operations from the empty buffer
(`HeapRb::new(RING_BUFFER_SIZE)` starts empty). -/
def rb_run (ops : List RbOp) : List Rat := ops.foldl rb_apply []

/-! ## Theorems -/

example :
    serializeJson (sort_json_object
      (.obj (.cons "b" (.num 2) (.cons "a" (.num 1) .nil))))
      = "\x7b\"a\":1,\"b\":2\x7d" := by rfl

example :
    serializeJson (sort_json_object
      (.obj (.cons "signature" (.str "s") (.cons "a" .null .nil))))
      = "\x7b\"a\":null\x7d" := by rfl

/-! ## Order lemmas for the key comparison -/

theorem charListLt_asymm :
    ∀ (a b : List Char), charListLt a b = true → charListLt b a = false := by
  intro a
  induction a with
  | nil =>
    intro b h
    cases b with
    | nil => simp [charListLt] at h
    | cons d ds => simp [charListLt]
  | cons c cs ih =>
    intro b h
    cases b with
    | nil => simp [charListLt] at h
    | cons d ds =>
      rcases Nat.lt_trichotomy c.toNat d.toNat with hlt | heq | hgt
      · have h1 : charLt d c = false := by simp [charLt]; omega
        have h2 : charLt c d = true := by simp [charLt, hlt]
        simp [charListLt, h1, h2]
      · have h1 : charLt c d = false := by simp [charLt]; omega
        have h2 : charLt d c = false := by simp [charLt]; omega
        simp only [charListLt, h1, h2, if_false] at h ⊢
        exact ih ds h
      · have h1 : charLt c d = false := by simp [charLt]; omega
        have h2 : charLt d c = true := by simp [charLt, hgt]
        simp [charListLt, h1, h2] at h

theorem charListLt_nlt_trans :
    ∀ (a b c : List Char), charListLt a b = false → charListLt b c = false →
      charListLt a c = false := by
  intro a
  induction a with
  | nil =>
    intro b c hab hbc
    cases b with
    | nil => exact hbc
    | cons d ds => simp [charListLt] at hab
  | cons x xs ih =>
    intro b c hab hbc
    cases c with
    | nil => simp [charListLt]
    | cons z zs =>
      cases b with
      | nil => simp [charListLt] at hbc
      | cons y ys =>
        rcases Nat.lt_trichotomy x.toNat y.toNat with hxy | hxy | hxy
        · have h2 : charLt x y = true := by simp [charLt, hxy]
          simp [charListLt, h2] at hab
        · rcases Nat.lt_trichotomy y.toNat z.toNat with hyz | hyz | hyz
          · have h2 : charLt y z = true := by simp [charLt, hyz]
            simp [charListLt, h2] at hbc
          · have e1 : charLt x y = false := by simp [charLt]; omega
            have e2 : charLt y x = false := by simp [charLt]; omega
            have e3 : charLt y z = false := by simp [charLt]; omega
            have e4 : charLt z y = false := by simp [charLt]; omega
            have e5 : charLt x z = false := by simp [charLt]; omega
            have e6 : charLt z x = false := by simp [charLt]; omega
            simp only [charListLt, e1, e2, e3, e4, e5, e6, if_false] at hab hbc ⊢
            exact ih ys zs hab hbc
          · have e5 : charLt x z = false := by simp [charLt]; omega
            have e6 : charLt z x = true := by simp [charLt]; omega
            simp [charListLt, e5, e6]
        · rcases Nat.lt_trichotomy y.toNat z.toNat with hyz | hyz | hyz
          · have h2 : charLt y z = true := by simp [charLt, hyz]
            simp [charListLt, h2] at hbc
          · have e5 : charLt x z = false := by simp [charLt]; omega
            have e6 : charLt z x = true := by simp [charLt]; omega
            simp [charListLt, e5, e6]
          · have e5 : charLt x z = false := by simp [charLt]; omega
            have e6 : charLt z x = true := by simp [charLt]; omega
            simp [charListLt, e5, e6]

theorem strLt_asymm {a b : String} (h : strLt a b = true) : strLt b a = false :=
  charListLt_asymm a.data b.data h

theorem strLt_nlt_trans {a b c : String} (hab : strLt a b = false)
    (hbc : strLt b c = false) : strLt a c = false :=
  charListLt_nlt_trans a.data b.data c.data hab hbc

/-! ## Sortedness of object fields -/

/-- Spine induction for `JsonFields` (the `induction` tactic cannot use
the multi-motive recursor of the mutual inductive directly). -/
theorem JsonFields.spineInd (motive : JsonFields → Prop)
    (nil : motive .nil)
    (cons : ∀ k v rest, motive rest → motive (.cons k v rest)) :
    ∀ fs, motive fs
  | .nil => nil
  | .cons k v rest => cons k v rest (JsonFields.spineInd motive nil cons rest)

theorem allKeyLe_mono {k1 k : String} {fs : JsonFields}
    (h : allKeyLe k1 fs = true) (hk : strLt k1 k = false) :
    allKeyLe k fs = true := by
  induction fs using JsonFields.spineInd with
  | nil => rfl
  | cons k2 v rest ih =>
    simp only [allKeyLe, Bool.and_eq_true, Bool.not_eq_true'] at h ⊢
    exact ⟨strLt_nlt_trans h.1 hk, ih h.2⟩

theorem allKeyLe_insertField {x k : String} {v : Json} {fs : JsonFields}
    (h : allKeyLe x fs = true) (hk : strLt k x = false) :
    allKeyLe x (insertField k v fs) = true := by
  induction fs using JsonFields.spineInd with
  | nil => simp [insertField, allKeyLe, hk]
  | cons k1 v1 rest ih =>
    simp only [allKeyLe, Bool.and_eq_true, Bool.not_eq_true'] at h
    by_cases h1 : strLt k1 k = true
    · simp [insertField, h1, allKeyLe, h.1, ih h.2]
    · simp [insertField, h1, allKeyLe, hk, h.1, h.2]

theorem sortedFields_insertField {k : String} {v : Json} {fs : JsonFields}
    (h : sortedFields fs = true) :
    sortedFields (insertField k v fs) = true := by
  induction fs using JsonFields.spineInd with
  | nil => simp [insertField, sortedFields, allKeyLe]
  | cons k1 v1 rest ih =>
    simp only [sortedFields, Bool.and_eq_true] at h
    by_cases h1 : strLt k1 k = true
    · have hkk1 : strLt k k1 = false := strLt_asymm h1
      simp only [insertField, h1, if_true, sortedFields, Bool.and_eq_true]
      exact ⟨allKeyLe_insertField h.1 hkk1, ih h.2⟩
    · have h1' : strLt k1 k = false := by
        cases hx : strLt k1 k with
        | false => rfl
        | true => exact absurd hx h1
      simp only [insertField, h1, if_false, sortedFields, Bool.and_eq_true,
        allKeyLe, Bool.not_eq_true', h1', Bool.and_eq_true, true_and]
      exact ⟨allKeyLe_mono h.1 h1', h.1, h.2⟩

theorem sortedFields_isort (fs : JsonFields) :
    sortedFields (isortFields fs) = true := by
  induction fs using JsonFields.spineInd with
  | nil => rfl
  | cons k v rest ih => exact sortedFields_insertField ih

theorem insertField_front {k : String} {v : Json} {fs : JsonFields}
    (h : allKeyLe k fs = true) : insertField k v fs = .cons k v fs := by
  cases fs with
  | nil => rfl
  | cons k1 v1 rest =>
    simp only [allKeyLe, Bool.and_eq_true, Bool.not_eq_true'] at h
    simp [insertField, h.1]

theorem isort_of_sorted {fs : JsonFields} (h : sortedFields fs = true) :
    isortFields fs = fs := by
  induction fs using JsonFields.spineInd with
  | nil => rfl
  | cons k v rest ih =>
    simp only [sortedFields, Bool.and_eq_true] at h
    rw [isortFields, ih h.2, insertField_front h.1]

theorem charListLt_irrefl (l : List Char) : charListLt l l = false := by
  induction l with
  | nil => rfl
  | cons c cs ih =>
    have h : charLt c c = false := by simp [charLt]
    simp [charListLt, h, ih]

theorem strLt_irrefl (a : String) : strLt a a = false :=
  charListLt_irrefl a.data

theorem allKeyLe_dropSig {k : String} {fs : JsonFields}
    (h : allKeyLe k fs = true) : allKeyLe k (dropSig fs) = true := by
  induction fs using JsonFields.spineInd with
  | nil => rfl
  | cons k1 v rest ih =>
    simp only [allKeyLe, Bool.and_eq_true, Bool.not_eq_true'] at h
    by_cases h1 : k1 = "signature"
    · simp [dropSig, h1, ih h.2]
    · simp [dropSig, h1, allKeyLe, h.1, ih h.2]

theorem sortedFields_dropSig {fs : JsonFields} (h : sortedFields fs = true) :
    sortedFields (dropSig fs) = true := by
  induction fs using JsonFields.spineInd with
  | nil => rfl
  | cons k1 v rest ih =>
    simp only [sortedFields, Bool.and_eq_true] at h
    by_cases h1 : k1 = "signature"
    · simp [dropSig, h1, ih h.2]
    · simp [dropSig, h1, sortedFields, allKeyLe_dropSig h.1, ih h.2]

theorem noSigF_dropSig (fs : JsonFields) : noSigF (dropSig fs) = true := by
  induction fs using JsonFields.spineInd with
  | nil => rfl
  | cons k1 v rest ih =>
    by_cases h1 : k1 = "signature"
    · simp [dropSig, h1, ih]
    · simp [dropSig, h1, noSigF, ih]

theorem dropSig_of_noSig {fs : JsonFields} (h : noSigF fs = true) :
    dropSig fs = fs := by
  induction fs using JsonFields.spineInd with
  | nil => rfl
  | cons k1 v rest ih =>
    by_cases h1 : k1 = "signature"
    · simp [noSigF, h1] at h
    · simp only [noSigF, Bool.and_eq_true] at h
      simp [dropSig, h1, ih h.2]

theorem dropSig_insert_sig (v : Json) (fs : JsonFields) :
    dropSig (insertField "signature" v fs) = dropSig fs := by
  induction fs using JsonFields.spineInd with
  | nil => simp [insertField, dropSig]
  | cons k1 v1 rest ih =>
    cases hx : strLt k1 "signature" with
    | true =>
      by_cases h2 : k1 = "signature"
      · subst h2; rw [strLt_irrefl] at hx; cases hx
      · simp [insertField, hx, dropSig, h2, ih]
    | false => simp [insertField, hx, dropSig]

theorem dropSig_insert_ne {k : String} (hk : k ≠ "signature") (v : Json)
    {fs : JsonFields} (hs : sortedFields fs = true) :
    dropSig (insertField k v fs) = insertField k v (dropSig fs) := by
  induction fs using JsonFields.spineInd with
  | nil => simp [insertField, dropSig, hk]
  | cons k1 v1 rest ih =>
    simp only [sortedFields, Bool.and_eq_true] at hs
    cases hx : strLt k1 k with
    | true =>
      by_cases h2 : k1 = "signature"
      · subst h2
        simp [insertField, hx, dropSig, ih hs.2]
      · simp [insertField, hx, dropSig, h2, ih hs.2]
    | false =>
      by_cases h2 : k1 = "signature"
      · subst h2
        have h3 : allKeyLe k rest = true := allKeyLe_mono hs.1 hx
        have h4 := allKeyLe_dropSig h3
        simp [insertField, hx, dropSig, hk, insertField_front h4]
      · simp [insertField, hx, dropSig, hk, h2]

theorem dropSig_isort_dropSig (fs : JsonFields) :
    dropSig (isortFields (dropSig fs)) = dropSig (isortFields fs) := by
  induction fs using JsonFields.spineInd with
  | nil => rfl
  | cons k v rest ih =>
    by_cases h1 : k = "signature"
    · subst h1
      have hdrop : dropSig (JsonFields.cons "signature" v rest) = dropSig rest := by
        simp [dropSig]
      rw [hdrop, ih]
      simp only [isortFields]
      rw [dropSig_insert_sig]
    · simp only [dropSig, h1, if_false, isortFields]
      rw [dropSig_insert_ne h1 v (sortedFields_isort (dropSig rest)), ih,
        ← dropSig_insert_ne h1 v (sortedFields_isort rest)]

theorem sortValsRec_dropSig (fs : JsonFields) :
    sortValsRec (dropSig fs) = dropSig (sortValsRec fs) := by
  induction fs using JsonFields.spineInd with
  | nil => rfl
  | cons k v rest ih =>
    by_cases h1 : k = "signature"
    · simp [dropSig, h1, sortValsRec, ih]
    · simp [dropSig, h1, sortValsRec, ih]

theorem sortValsRec_insertField (k : String) (v : Json) (fs : JsonFields) :
    sortValsRec (insertField k v fs)
      = insertField k (sort_json_object v) (sortValsRec fs) := by
  induction fs using JsonFields.spineInd with
  | nil => rfl
  | cons k1 v1 rest ih =>
    cases hx : strLt k1 k with
    | true => simp [insertField, hx, sortValsRec, ih]
    | false => simp [insertField, hx, sortValsRec]

theorem sortValsRec_isort (fs : JsonFields) :
    sortValsRec (isortFields fs) = isortFields (sortValsRec fs) := by
  induction fs using JsonFields.spineInd with
  | nil => rfl
  | cons k v rest ih => simp [isortFields, sortValsRec, sortValsRec_insertField, ih]

/-! ## Idempotence of the canonicalization -/

mutual

theorem sort_json_object_idem (j : Json) :
    sort_json_object (sort_json_object j) = sort_json_object j :=
  match j with
  | .null => rfl
  | .bool _ => rfl
  | .num _ => rfl
  | .str _ => rfl
  | .arr _ => rfl
  | .obj fs => by
      have hvals :
          sortValsRec (dropSig (isortFields (sortValsRec fs)))
            = dropSig (isortFields (sortValsRec fs)) := by
        rw [sortValsRec_dropSig, sortValsRec_isort, sortValsRec_idem fs]
      have hsorted : sortedFields (dropSig (isortFields (sortValsRec fs))) = true :=
        sortedFields_dropSig (sortedFields_isort (sortValsRec fs))
      show Json.obj (dropSig (isortFields
          (sortValsRec (dropSig (isortFields (sortValsRec fs))))))
        = Json.obj (dropSig (isortFields (sortValsRec fs)))
      rw [hvals, isort_of_sorted hsorted,
        dropSig_of_noSig (noSigF_dropSig (isortFields (sortValsRec fs)))]
termination_by structural j

theorem sortValsRec_idem (fs : JsonFields) :
    sortValsRec (sortValsRec fs) = sortValsRec fs :=
  match fs with
  | .nil => rfl
  | .cons k v rest => by
      show JsonFields.cons k (sort_json_object (sort_json_object v))
          (sortValsRec (sortValsRec rest))
        = JsonFields.cons k (sort_json_object v) (sortValsRec rest)
      rw [sort_json_object_idem v, sortValsRec_idem rest]
termination_by structural fs

end

theorem removeFieldF_sig_eq_dropSig (fs : JsonFields) :
    removeFieldF "signature" fs = dropSig fs := by
  induction fs using JsonFields.spineInd with
  | nil => rfl
  | cons k v rest ih =>
    by_cases h1 : k = "signature"
    · simp [removeFieldF, dropSig, h1, ih]
    · simp [removeFieldF, dropSig, h1, ih]

theorem sortValsRec_mapInsert (k : String) (v : Json) (fs : JsonFields) :
    sortValsRec (mapInsert k v fs)
      = mapInsert k (sort_json_object v) (sortValsRec fs) := by
  induction fs using JsonFields.spineInd with
  | nil => rfl
  | cons k1 v1 rest ih =>
    by_cases h1 : k1 = k
    · simp [mapInsert, h1, sortValsRec]
    · simp [mapInsert, h1, sortValsRec, ih]

theorem dropSig_isort_mapInsert_sig (v : Json) (fs : JsonFields) :
    dropSig (isortFields (mapInsert "signature" v fs))
      = dropSig (isortFields fs) := by
  induction fs using JsonFields.spineInd with
  | nil => simp [mapInsert, isortFields, insertField, dropSig]
  | cons k1 v1 rest ih =>
    by_cases h1 : k1 = "signature"
    · subst h1
      simp only [mapInsert, if_pos rfl, isortFields]
      rw [dropSig_insert_sig, dropSig_insert_sig]
    · simp only [mapInsert, h1, if_false, isortFields]
      rw [dropSig_insert_ne h1 v1 (sortedFields_isort (mapInsert "signature" v rest)),
        ih, ← dropSig_insert_ne h1 v1 (sortedFields_isort rest)]

/-- Inserting (or overwriting) a top-level `"signature"` field does not
change the canonical form. -/
theorem sort_objectInsert_sig (v m : Json) :
    sort_json_object (Json.objectInsert "signature" v m) = sort_json_object m :=
  match m with
  | .null => rfl
  | .bool _ => rfl
  | .num _ => rfl
  | .str _ => rfl
  | .arr _ => rfl
  | .obj fs => by
      show Json.obj (dropSig (isortFields (sortValsRec (mapInsert "signature" v fs))))
        = Json.obj (dropSig (isortFields (sortValsRec fs)))
      rw [sortValsRec_mapInsert, dropSig_isort_mapInsert_sig]

/-- Removing the top-level `"signature"` field does not change the
canonical form. -/
theorem sort_removeField_sig (m : Json) :
    sort_json_object (Json.removeField "signature" m) = sort_json_object m :=
  match m with
  | .null => rfl
  | .bool _ => rfl
  | .num _ => rfl
  | .str _ => rfl
  | .arr _ => rfl
  | .obj fs => by
      show Json.obj (dropSig (isortFields (sortValsRec (removeFieldF "signature" fs))))
        = Json.obj (dropSig (isortFields (sortValsRec fs)))
      rw [removeFieldF_sig_eq_dropSig, sortValsRec_dropSig, dropSig_isort_dropSig]

theorem sortValsRec_modifyField {g : Json → Json}
    (hg : ∀ x, sort_json_object (g x) = sort_json_object x)
    (k : String) (fs : JsonFields) :
    sortValsRec (modifyField k g fs) = sortValsRec fs := by
  induction fs using JsonFields.spineInd with
  | nil => rfl
  | cons k1 v rest ih =>
    by_cases h1 : k1 = k
    · simp [modifyField, h1, sortValsRec, hg v]
    · simp [modifyField, h1, sortValsRec, ih]

/-- Adding a `"signature"` field anywhere along a path of object keys
does not change the canonical form. -/
theorem sort_addSigAt (path : List String) (v x : Json) :
    sort_json_object (addSigAt path v x) = sort_json_object x := by
  induction path generalizing x with
  | nil =>
    match x with
    | .null => rfl
    | .bool _ => rfl
    | .num _ => rfl
    | .str _ => rfl
    | .arr _ => rfl
    | .obj fs =>
      show Json.obj (dropSig (isortFields (sortValsRec
          (.cons "signature" v fs)))) = _
      simp only [sortValsRec, isortFields]
      rw [dropSig_insert_sig]
      rfl
  | cons k ks ih =>
    match x with
    | .null => rfl
    | .bool _ => rfl
    | .num _ => rfl
    | .str _ => rfl
    | .arr _ => rfl
    | .obj fs =>
      show Json.obj (dropSig (isortFields (sortValsRec
          (modifyField k (fun y => addSigAt ks v y) fs)))) = _
      rw [sortValsRec_modifyField (fun y => ih y) k fs]
      rfl

/-- Removing a `"signature"` field anywhere along a path of object keys
does not change the canonical form. -/
theorem sort_removeSigAt (path : List String) (x : Json) :
    sort_json_object (removeSigAt path x) = sort_json_object x := by
  induction path generalizing x with
  | nil =>
    match x with
    | .null => rfl
    | .bool _ => rfl
    | .num _ => rfl
    | .str _ => rfl
    | .arr _ => rfl
    | .obj fs =>
      show Json.obj (dropSig (isortFields (sortValsRec
          (removeFieldF "signature" fs)))) = _
      rw [removeFieldF_sig_eq_dropSig, sortValsRec_dropSig, dropSig_isort_dropSig]
      rfl
  | cons k ks ih =>
    match x with
    | .null => rfl
    | .bool _ => rfl
    | .num _ => rfl
    | .str _ => rfl
    | .arr _ => rfl
    | .obj fs =>
      show Json.obj (dropSig (isortFields (sortValsRec
          (modifyField k (fun y => removeSigAt ks y) fs)))) = _
      rw [sortValsRec_modifyField (fun y => ih y) k fs]
      rfl

theorem canonFields_insertField {k : String} {v : Json} {fs : JsonFields}
    (hv : canonJson v = true) (h : canonFields fs = true) :
    canonFields (insertField k v fs) = true := by
  induction fs using JsonFields.spineInd with
  | nil => simp [insertField, canonFields, hv]
  | cons k1 v1 rest ih =>
    simp only [canonFields, Bool.and_eq_true] at h
    cases hx : strLt k1 k with
    | true => simp [insertField, hx, canonFields, h.1, ih h.2]
    | false => simp [insertField, hx, canonFields, hv, h.1, h.2]

theorem canonFields_isort {fs : JsonFields} (h : canonFields fs = true) :
    canonFields (isortFields fs) = true := by
  induction fs using JsonFields.spineInd with
  | nil => rfl
  | cons k v rest ih =>
    simp only [canonFields, Bool.and_eq_true] at h
    simp only [isortFields]
    exact canonFields_insertField h.1 (ih h.2)

theorem canonFields_dropSig {fs : JsonFields} (h : canonFields fs = true) :
    canonFields (dropSig fs) = true := by
  induction fs using JsonFields.spineInd with
  | nil => rfl
  | cons k v rest ih =>
    simp only [canonFields, Bool.and_eq_true] at h
    by_cases h1 : k = "signature"
    · simp [dropSig, h1, ih h.2]
    · simp [dropSig, h1, canonFields, h.1, ih h.2]

mutual

/-- The output of `sort_json_object` is canonical along object paths. -/
theorem canonJson_sort (j : Json) : canonJson (sort_json_object j) = true :=
  match j with
  | .null => rfl
  | .bool _ => rfl
  | .num _ => rfl
  | .str _ => rfl
  | .arr _ => rfl
  | .obj fs => by
      show (sortedFields (dropSig (isortFields (sortValsRec fs)))
          && noSigF (dropSig (isortFields (sortValsRec fs)))
          && canonFields (dropSig (isortFields (sortValsRec fs)))) = true
      rw [sortedFields_dropSig (sortedFields_isort (sortValsRec fs)),
        noSigF_dropSig,
        canonFields_dropSig (canonFields_isort (canonFields_sortValsRec fs))]
      rfl
termination_by structural j

/-- All values produced by `sortValsRec` are canonical. -/
theorem canonFields_sortValsRec (fs : JsonFields) :
    canonFields (sortValsRec fs) = true :=
  match fs with
  | .nil => rfl
  | .cons k v rest => by
      show (canonJson (sort_json_object v) && canonFields (sortValsRec rest)) = true
      rw [canonJson_sort v, canonFields_sortValsRec rest]
      rfl
termination_by structural fs

end

theorem getFieldF_mapInsert (k : String) (v : Json) (fs : JsonFields) :
    getFieldF k (mapInsert k v fs) = some v := by
  induction fs using JsonFields.spineInd with
  | nil => simp [mapInsert, getFieldF]
  | cons k1 v1 rest ih =>
    by_cases h1 : k1 = k
    · simp [mapInsert, h1, getFieldF]
    · simp [mapInsert, h1, getFieldF, ih]

/-- Every message built by `send_signed_message` from an object payload
carries a `signature` field that verifies, under the key pair's public
key, against the canonicalization of the message with its `signature`
field removed. -/
theorem send_signed_message_verifies (kp : KeyPair) (fs : JsonFields) (ts : Int) :
    ∃ s : String,
      Json.getField "signature" (send_signed_message kp (Json.obj fs) ts)
        = some (.str s)
      ∧ kp.verify (canonicalString (Json.removeField "signature"
          (send_signed_message kp (Json.obj fs) ts))) s = true := by
  refine ⟨kp.sign_message (Json.objectInsert "timestamp" (.num ts) (Json.obj fs)),
    ?_, ?_⟩
  · show Json.getField "signature"
        (Json.obj (mapInsert "signature" _ (mapInsert "timestamp" _ fs))) = _
    simp only [Json.getField]
    rw [getFieldF_mapInsert]
  · have h1 : sort_json_object (Json.removeField "signature"
        (send_signed_message kp (Json.obj fs) ts))
        = sort_json_object (Json.objectInsert "timestamp" (.num ts) (Json.obj fs)) := by
      rw [sort_removeField_sig]
      show sort_json_object (Json.objectInsert "signature"
          (.str (kp.sign_message (Json.objectInsert "timestamp" (.num ts) (Json.obj fs))))
          (Json.objectInsert "timestamp" (.num ts) (Json.obj fs)))
        = sort_json_object (Json.objectInsert "timestamp" (.num ts) (Json.obj fs))
      exact sort_objectInsert_sig _ _
    simp only [KeyPair.verify, canonicalString, h1, KeyPair.sign_message]
    exact beq_self_eq_true _

/-- C1 — corrected.  `sign_message` signs exactly the canonical form:
objects are recursively rebuilt with keys sorted and `"signature"`
removed at every depth reachable through nested objects, while arrays
(and everything inside them) are kept verbatim; non-object values are
signed as their own serialization; and every message the signaling
client sends carries a signature that verifies under the key pair's
public key against the canonicalization of the message with its
`signature` field removed. -/
theorem sign_message_canonical_and_sent_messages_verify
    (kp : KeyPair) (fs : JsonFields) (ts : Int) (v : Json) (l : JsonList)
    (n : Int) (s0 : String) :
    kp.sign_message v = kp.sign_base64 (canonicalString v)
    ∧ canonJson (sort_json_object v) = true
    ∧ sort_json_object (Json.arr l) = Json.arr l
    ∧ sort_json_object Json.null = Json.null
    ∧ sort_json_object (Json.num n) = Json.num n
    ∧ sort_json_object (Json.str s0) = Json.str s0
    ∧ ∃ s : String,
        Json.getField "signature" (send_signed_message kp (Json.obj fs) ts)
          = some (.str s)
        ∧ kp.verify (canonicalString (Json.removeField "signature"
            (send_signed_message kp (Json.obj fs) ts))) s = true :=
  ⟨rfl, canonJson_sort v, rfl, rfl, rfl, rfl, send_signed_message_verifies kp fs ts⟩

/-- C1 — counterexample to the claim as stated: the claim promises that
every key named `"signature"` is removed at every depth, but
`sort_json_object` does not recurse into arrays, so the canonical form
of `{"a":[{"signature":null}]}` still contains a `"signature"` key. -/
theorem sort_keeps_sig_inside_array :
    hasSigDeep (sort_json_object (Json.obj (.cons "a"
      (.arr (.cons (.obj (.cons "signature" Json.null .nil)) .nil)) .nil)))
      = true := by
  decide

/-- C9 — corrected.  The canonicalization is idempotent, and adding or
removing a `"signature"` field at any depth reachable through nested
objects leaves the canonical form unchanged (transparency stops at
arrays: a `"signature"` field inside an array-nested object is kept —
see the counterexample). -/
theorem canonicalization_idempotent_and_sig_transparent
    (x v : Json) (path : List String) :
    sort_json_object (sort_json_object x) = sort_json_object x
    ∧ sort_json_object (addSigAt path v x) = sort_json_object x
    ∧ sort_json_object (removeSigAt path x) = sort_json_object x :=
  ⟨sort_json_object_idem x, sort_addSigAt path v x, sort_removeSigAt path x⟩

/-- C9 — counterexample to the claim as stated: adding a `"signature"`
field to the object nested inside the array of `{"a":[{}]}` *does*
change the canonical form, because `sort_json_object` copies arrays
verbatim. -/
theorem adding_sig_inside_array_changes_canonical_form :
    sort_json_object (Json.obj (.cons "a"
        (.arr (.cons (.obj (.cons "signature" Json.null .nil)) .nil)) .nil))
      ≠ sort_json_object (Json.obj (.cons "a"
        (.arr (.cons (.obj .nil) .nil)) .nil)) := by
  intro h
  have h2 := congrArg hasSigDeep h
  rw [show hasSigDeep (sort_json_object (Json.obj (.cons "a"
      (.arr (.cons (.obj (.cons "signature" Json.null .nil)) .nil)) .nil)))
      = true from by decide] at h2
  rw [show hasSigDeep (sort_json_object (Json.obj (.cons "a"
      (.arr (.cons (.obj .nil) .nil)) .nil)))
      = false from by decide] at h2
  exact Bool.noConfusion h2

/-! ## Claim theorems: signaling, call engine, heartbeat, audio -/

/-- From `Idle`, `start_call` always moves the state to `Calling`,
whatever the RTC operations do. -/
theorem start_call_state_idle (env : RtcEnv) (p : String) :
    (start_call env CallState.Idle p).2 = CallState.Calling p := by
  obtain ⟨cpc, atr, cof, can, sld, srd, pof, aud, osdp, asdp⟩ := env
  have h : ¬ (CallState.Idle ≠ CallState.Idle) := by simp
  simp only [start_call, if_neg h]
  cases cpc <;> cases atr <;> cases cof <;> cases sld <;> cases aud <;> rfl

/-- The RTC phase of `accept_call` always leaves the state at
`Connecting`. -/
theorem accept_call_rtc_state (env : RtcEnv) (p : String) :
    (accept_call_rtc env p).2 = CallState.Connecting p := by
  obtain ⟨cpc, atr, cof, can, sld, srd, pof, aud, osdp, asdp⟩ := env
  simp only [accept_call_rtc]
  cases cpc <;> cases pof <;> cases srd <;> cases atr <;> cases can
    <;> cases sld <;> cases aud <;> rfl

/-- C3 — confirmed.  `start_call` succeeds only from `Idle` and moves
the state to `Calling{peer_id}`; `accept_call` succeeds only from
`Ringing` or `Idle` and moves the state to `Connecting{peer_id}`; from
every other state both return `AlreadyInCall` and leave the state
unchanged. -/
theorem call_state_machine_guards (env : RtcEnv) (p x u off : String) :
    (start_call env CallState.Idle p).2 = CallState.Calling p
    ∧ start_call env (.Calling x) p = (.error .AlreadyInCall, .Calling x)
    ∧ start_call env (.Ringing x u) p = (.error .AlreadyInCall, .Ringing x u)
    ∧ start_call env (.Connecting x) p = (.error .AlreadyInCall, .Connecting x)
    ∧ start_call env (.Connected x) p = (.error .AlreadyInCall, .Connected x)
    ∧ start_call env .Ended p = (.error .AlreadyInCall, .Ended)
    ∧ (accept_call env CallState.Idle p off).2 = CallState.Connecting p
    ∧ (accept_call env (.Ringing x u) p off).2 = CallState.Connecting p
    ∧ accept_call env (.Calling x) p off = (.error .AlreadyInCall, .Calling x)
    ∧ accept_call env (.Connecting x) p off = (.error .AlreadyInCall, .Connecting x)
    ∧ accept_call env (.Connected x) p off = (.error .AlreadyInCall, .Connected x)
    ∧ accept_call env .Ended p off = (.error .AlreadyInCall, .Ended) :=
  ⟨start_call_state_idle env p, rfl, rfl, rfl, rfl, rfl,
    accept_call_rtc_state env p, accept_call_rtc_state env p,
    rfl, rfl, rfl, rfl⟩

/-- C4 — corrected.  When an RTC operation inside `start_call` or
`accept_call` fails (earlier operations succeeding), the call returns
`CallEngineError::WebRTC`, but the state is NOT transitioned to `Ended`:
it stays at `Calling{peer_id}` (resp. `Connecting{peer_id}`), because
the error propagates with `?` and nothing resets the state. -/
theorem rtc_failure_returns_webrtc_but_state_not_ended
    (e p x u off oS aS : String) (f2 f3 f4 f5 f6 f7 f8 : Option String) :
    start_call (RtcEnv.mk (some e) f2 f3 f4 f5 f6 f7 f8 oS aS) .Idle p
      = (.error (.WebRTC e), .Calling p)
    ∧ start_call (RtcEnv.mk none (some e) f3 f4 f5 f6 f7 f8 oS aS) .Idle p
      = (.error (.WebRTC e), .Calling p)
    ∧ start_call (RtcEnv.mk none none (some e) f4 f5 f6 f7 f8 oS aS) .Idle p
      = (.error (.WebRTC e), .Calling p)
    ∧ start_call (RtcEnv.mk none none none f4 (some e) f6 f7 f8 oS aS) .Idle p
      = (.error (.WebRTC e), .Calling p)
    ∧ accept_call (RtcEnv.mk (some e) f2 f3 f4 f5 f6 f7 f8 oS aS)
        (.Ringing x u) p off = (.error (.WebRTC e), .Connecting p)
    ∧ accept_call (RtcEnv.mk none f2 f3 f4 f5 (some e) none f8 oS aS)
        (.Ringing x u) p off = (.error (.WebRTC e), .Connecting p)
    ∧ accept_call (RtcEnv.mk none (some e) f3 f4 f5 none none f8 oS aS)
        (.Ringing x u) p off = (.error (.WebRTC e), .Connecting p)
    ∧ accept_call (RtcEnv.mk none none f3 (some e) f5 none none f8 oS aS)
        (.Ringing x u) p off = (.error (.WebRTC e), .Connecting p)
    ∧ accept_call (RtcEnv.mk none none f3 none (some e) none none f8 oS aS)
        (.Ringing x u) p off = (.error (.WebRTC e), .Connecting p)
    ∧ CallState.Calling p ≠ CallState.Ended
    ∧ CallState.Connecting p ≠ CallState.Ended :=
  ⟨rfl, rfl, rfl, rfl, rfl, rfl, rfl, rfl, rfl,
    fun h => CallState.noConfusion h, fun h => CallState.noConfusion h⟩

/-- C4 — counterexample to the claim as stated: with peer-connection
creation failing, `start_call` from `Idle` returns the `WebRTC` error
but leaves the state at `Calling{"p-2"}`, not `Ended`. -/
theorem rtc_failure_leaves_state_calling :
    start_call (RtcEnv.mk (some "pc failed") none none none none none none none
        "v=0" "v=0") CallState.Idle "p-2"
      = (.error (.WebRTC "pc failed"), .Calling "p-2")
    ∧ CallState.Calling "p-2" ≠ CallState.Ended :=
  ⟨rfl, by decide⟩

/-- C5 — confirmed.  `end_call` (and `reject_call`, which delegates to
it) tears down audio and the peer connection, sets the state to `Ended`
broadcasting `StateChanged(Ended)`, and schedules the 500 ms transition
to `Idle` with its `StateChanged(Idle)` event; hence the state is `Idle`
from 500 ms on, in particular within 600 ms. -/
theorem end_call_reaches_idle_within_600ms (m : EngineModel) (d : Nat) :
    (end_call m).engine.state = CallState.Ended
    ∧ (end_call m).events = [CallEvent.StateChanged CallState.Ended]
    ∧ (end_call m).timer.delayMs = 500
    ∧ (end_call m).timer.target = CallState.Idle
    ∧ (end_call m).timer.event = CallEvent.StateChanged CallState.Idle
    ∧ (end_call m).engine.audio_running = false
    ∧ (end_call m).engine.pc_open = false
    ∧ stateAfterEndCall m 0 = CallState.Ended
    ∧ stateAfterEndCall m (500 + d) = CallState.Idle
    ∧ stateAfterEndCall m 600 = CallState.Idle
    ∧ reject_call m = end_call m := by
  refine ⟨rfl, rfl, rfl, rfl, rfl, rfl, rfl, rfl, ?_, ?_, rfl⟩
  · show (if 500 + d < 500 then CallState.Ended else CallState.Idle)
      = CallState.Idle
    rw [if_neg (by omega)]
  · rfl

/-- C10 — confirmed.  `register_incoming_call` unconditionally sets
`Ringing{peer_id, username}` from every state (it cannot fail — there is
no `AlreadyInCall` path), and the orchestrator invokes it on every
`IncomingCall` event, so an incoming offer replaces an active call's
state. -/
theorem incoming_call_overrides_any_state (m : EngineModel) (p u sdp x : String) :
    (register_incoming_call m p u).1 = { m with state := CallState.Ringing p u }
    ∧ (register_incoming_call m p u).2
        = CallEvent.StateChanged (CallState.Ringing p u)
    ∧ handle_signaling_event_engine (.IncomingCall p u sdp) m
        = { m with state := CallState.Ringing p u }
    ∧ (register_incoming_call { m with state := CallState.Calling x } p u).1.state
        = CallState.Ringing p u
    ∧ (register_incoming_call { m with state := CallState.Connecting x } p u).1.state
        = CallState.Ringing p u
    ∧ (register_incoming_call { m with state := CallState.Connected x } p u).1.state
        = CallState.Ringing p u :=
  ⟨rfl, rfl, rfl, rfl, rfl, rfl⟩

/-- C2 — corrected.  `connect_and_register` waits at most 10 s
(10 000 ms) for a registration response: no response in time yields
`RegistrationFailed("Timeout")`; but a server `error` message is passed
through as `SignalingError::ServerError{code, message}`, NOT as a
`RegistrationFailed` error. -/
theorem registration_timeout_and_error_outcomes
    (st : ClientState) (code : Int) (message : String) (ts : Int) (d : Nat)
    (m0 : Option (Except SignalingError String)) (p : String)
    (e : SignalingError) :
    REGISTRATION_TIMEOUT_MS = 10000
    ∧ regOutcomeAt none = RegOutcome.timeout
    ∧ regOutcomeAt (some (REGISTRATION_TIMEOUT_MS + d, m0)) = RegOutcome.timeout
    ∧ registration_result RegOutcome.timeout
        = .error (.RegistrationFailed "Timeout")
    ∧ (handle_server_message (.Error code message ts) st).2.1
        = some (.error (.ServerError code message))
    ∧ registration_result (.recv (some (.error e))) = .error e
    ∧ registration_result (.recv (some (.ok p))) = .ok p := by
  refine ⟨rfl, rfl, ?_, rfl, rfl, rfl, rfl⟩
  show (if REGISTRATION_TIMEOUT_MS + d < REGISTRATION_TIMEOUT_MS
      then RegOutcome.recv m0 else RegOutcome.timeout) = RegOutcome.timeout
  rw [if_neg (by simp [REGISTRATION_TIMEOUT_MS])]

/-- C2 — counterexample to the claim as stated: a server
`error{400, "Username already taken"}` arriving within 10 s makes
`connect_and_register` return `ServerError{400, ...}`, which is not a
`RegistrationFailed` error. -/
theorem error_reply_gives_ServerError_not_RegistrationFailed :
    registration_result (regOutcomeAt (some (5000,
        first_reg_response [.Error 400 "Username already taken" 0]
          (ClientState.mk true none (some "alice")))))
      = .error (.ServerError 400 "Username already taken")
    ∧ isRegistrationFailed (.ServerError 400 "Username already taken") = false :=
  ⟨rfl, rfl⟩

/-- C6 — confirmed.  The heartbeat task ticks every 25 s, and on each
tick, while the client is connected and registered (it has a
`peer_id`), a signed `heartbeat{peerId}` message is built and enqueued;
the message carries `type = "heartbeat"`, the client's peer id, and a
signature that verifies against the canonicalized message without its
`signature` field. -/
theorem heartbeat_every_25s_signed (kp : KeyPair) (st : ClientState)
    (p : String) (ts : Int) (n : Nat)
    (hconn : st.is_connected = true) (hreg : st.peer_id = some p) :
    HEARTBEAT_INTERVAL_SECS = 25
    ∧ heartbeat_tick_time (n + 1) - heartbeat_tick_time n = 25
    ∧ heartbeat_task_tick kp (some st) ts
        = some (send_signed_message kp (HeartbeatPayload_new p) ts)
    ∧ Json.getField "type" (send_signed_message kp (HeartbeatPayload_new p) ts)
        = some (.str "heartbeat")
    ∧ Json.getField "peerId" (send_signed_message kp (HeartbeatPayload_new p) ts)
        = some (.str p)
    ∧ ∃ s : String,
        Json.getField "signature"
            (send_signed_message kp (HeartbeatPayload_new p) ts)
          = some (.str s)
        ∧ kp.verify (canonicalString (Json.removeField "signature"
            (send_signed_message kp (HeartbeatPayload_new p) ts))) s = true := by
  refine ⟨rfl, ?_, ?_, rfl, rfl,
    send_signed_message_verifies kp
      (.cons "type" (.str "heartbeat") (.cons "peerId" (.str p) .nil)) ts⟩
  · show HEARTBEAT_INTERVAL_SECS * (n + 1) - HEARTBEAT_INTERVAL_SECS * n = 25
    simp [HEARTBEAT_INTERVAL_SECS, Nat.mul_succ]
  · simp [heartbeat_task_tick, hconn, hreg]

/-- C6 — witness: a concrete connected, registered client state
satisfies the hypotheses, and the tick enqueues the signed heartbeat. -/
theorem heartbeat_witness :
    (ClientState.mk true (some "p-1") (some "alice")).is_connected = true
    ∧ (ClientState.mk true (some "p-1") (some "alice")).peer_id = some "p-1"
    ∧ heartbeat_task_tick (KeyPair.mk id)
        (some (ClientState.mk true (some "p-1") (some "alice"))) 1234
        = some (send_signed_message (KeyPair.mk id)
            (HeartbeatPayload_new "p-1") 1234) :=
  ⟨rfl, rfl,
    (heartbeat_every_25s_signed (KeyPair.mk id)
      (ClientState.mk true (some "p-1") (some "alice")) "p-1" 1234 0
      rfl rfl).2.2.1⟩

/-- C7 — corrected.  While muted, the capture callback discards the
block entirely — nothing (zeroed or otherwise) is written to the capture
ring — and the input level is still updated with `min(rms, 1)`; the
level meter is updated whether muted or not. -/
theorem muted_capture_discards_but_meters
    (sqrtFn : Rat → Rat) (sr tr : Nat) (data buffer : List Rat) (muted : Bool) :
    input_callback sqrtFn sr tr true data buffer
      = { buffer := buffer, input_level := min (blockRms sqrtFn data) 1 }
    ∧ (input_callback sqrtFn sr tr muted data buffer).input_level
        = min (blockRms sqrtFn data) 1 := by
  refine ⟨rfl, ?_⟩
  cases muted <;> rfl

/-- C7 — counterexample to the claim as stated: a muted callback block
of two samples writes NOTHING to the (empty) capture ring — the ring
does not receive two zeroed samples as the claim describes. -/
theorem muted_samples_not_zeroed_into_ring :
    (input_callback (fun x => x) 48000 48000 true
        (List.cons (1/2) (List.cons (1/2) List.nil)) []).buffer = []
    ∧ ([] : List Rat) ≠ [0, 0] :=
  ⟨rfl, by decide⟩

/-- `try_push` keeps the buffer within capacity. -/
theorem rb_try_push_length {buf : List Rat}
    (h : buf.length ≤ RING_BUFFER_SIZE) (s : Rat) :
    (rb_try_push buf s).length ≤ RING_BUFFER_SIZE := by
  unfold rb_try_push
  split
  · simp only [List.length_append, List.length_cons, List.length_nil]
    omega
  · exact h

/-- `write_samples` keeps the buffer within capacity. -/
theorem write_samples_length :
    ∀ (samples : List Rat) (buf : List Rat),
      buf.length ≤ RING_BUFFER_SIZE →
      (write_samples buf samples).length ≤ RING_BUFFER_SIZE
  | [], _, h => h
  | s :: rest, buf, h =>
      write_samples_length rest (rb_try_push buf s) (rb_try_push_length h s)

/-- Every ring-buffer operation keeps the buffer within capacity. -/
theorem rb_apply_length {buf : List Rat}
    (h : buf.length ≤ RING_BUFFER_SIZE) (op : RbOp) :
    (rb_apply buf op).length ≤ RING_BUFFER_SIZE := by
  cases op with
  | push s => exact rb_try_push_length h s
  | write samples => exact write_samples_length samples buf h
  | pop =>
    cases buf with
    | nil => exact h
    | cons x rest =>
      show rest.length ≤ RING_BUFFER_SIZE
      simp only [List.length_cons] at h
      omega
  | readFrame =>
    show (read_frame buf).2.length ≤ RING_BUFFER_SIZE
    unfold read_frame
    split
    · show (List.drop FRAME_SIZE buf).length ≤ RING_BUFFER_SIZE
      rw [List.length_drop]
      omega
    · exact h

/-- Any operation sequence from the empty buffer stays within capacity. -/
theorem rb_foldl_length :
    ∀ (ops : List RbOp) (buf : List Rat),
      buf.length ≤ RING_BUFFER_SIZE →
      (ops.foldl rb_apply buf).length ≤ RING_BUFFER_SIZE
  | [], _, h => h
  | op :: rest, buf, h => rb_foldl_length rest _ (rb_apply_length h op)

/-- `write_samples` on a full buffer drops everything. -/
theorem write_samples_full {buf : List Rat}
    (h : buf.length = RING_BUFFER_SIZE) (samples : List Rat) :
    write_samples buf samples = buf := by
  induction samples with
  | nil => rfl
  | cons s rest ih =>
    have hp : rb_try_push buf s = buf := by
      unfold rb_try_push
      rw [if_neg (by omega)]
    show rest.foldl rb_try_push (rb_try_push buf s) = buf
    rw [hp]
    exact ih

/-- C8 — confirmed.  The ring buffers hold at most 9 600 samples
(10 × 960) under every sequence of the code's operations from the empty
start; a `try_push` into a full buffer (capture callback or
`write_samples`) silently drops the new sample and leaves the contents
unchanged; popping the empty playback buffer yields 0.0. -/
theorem ring_buffer_capacity_and_edge_ops (ops : List RbOp) (b : List Rat)
    (s : Rat) (samples : List Rat) (hfull : b.length = RING_BUFFER_SIZE) :
    RING_BUFFER_SIZE = 9600
    ∧ FRAME_SIZE = 960
    ∧ (rb_run ops).length ≤ RING_BUFFER_SIZE
    ∧ rb_try_push b s = b
    ∧ write_samples b samples = b
    ∧ (output_pop []).1 = 0 := by
  refine ⟨rfl, rfl, rb_foldl_length ops [] (by simp), ?_, write_samples_full hfull samples, rfl⟩
  unfold rb_try_push
  rw [if_neg (by omega)]

/-- C8 — witness: a buffer of exactly 9 600 samples is full, and pushing
one more sample leaves it unchanged. -/
theorem ring_buffer_witness :
    (List.replicate 9600 (0 : Rat)).length = RING_BUFFER_SIZE
    ∧ rb_try_push (List.replicate 9600 (0 : Rat)) (7/2)
        = List.replicate 9600 (0 : Rat) := by
  have hlen : (List.replicate 9600 (0 : Rat)).length = RING_BUFFER_SIZE := by
    rw [List.length_replicate]
    rfl
  exact ⟨hlen,
    (ring_buffer_capacity_and_edge_ops [] (List.replicate 9600 (0 : Rat))
      (7/2) [] hlen).2.2.2.1⟩
